import Mathlib

/-!
Verification development for the rings-visualization core of the
`arbor-parser` repository (`src/components/RingsVisualization.tsx`).

The component lays out a syntax tree as nested circles with the d3 pack
layout, draws curved labels along the top arc of eligible circles, and
drives a click-to-zoom focus interaction plus a hover bridge to an
external listener.

Embedding conventions:
* JavaScript numbers are embedded as rationals; `Math.PI` is embedded as
  the exact decimal value of the double-precision constant.
* JavaScript strings are embedded as lists of characters.
* The React component state (focused node, zoom-group transform, label
  opacities) is embedded as an explicit state record, and the event
  handlers (effect re-run on a new tree, circle click, reset button,
  mouse enter and leave) as a step function on that state that also
  returns the list of calls made to the hover listener.
* The circle packing itself is performed by the external `d3.pack`
  library, which is not part of the repository sources; it is modelled
  from the specification of the LayoutEngine (see `packAt` below).
-/

namespace Arbor

/-- Value of the JavaScript constant `Math.PI` (the double nearest to pi),
embedded as the decimal literal of its printed value. -/
def mathPi : ℚ := 3.141592653589793

/-- Source line 34: `const width = 800`. -/
def width : ℚ := 800

/-- Source line 35: `const height = 600`. -/
def height : ℚ := 600

/-- Source line 36: `const margin = 50`. -/
def margin : ℚ := 50

/-- Source lines 48-52: `getFontSize(depth)` returns
`Math.max(40 - depth * 3, 24)`. -/
def getFontSize (depth : ℕ) : ℤ :=
  max (40 - 3 * (depth : ℤ)) 24

/-- Source line 55: `const maxFontSize = getFontSize(0)`. -/
def maxFontSize : ℤ := getFontSize 0

/-- Source line 58: `pack.padding(maxFontSize)` registers the constant
`maxFontSize` as the separation d3 applies between circles at every
depth of the packing. -/
def appliedPadding (_depth : ℕ) : ℤ := maxFontSize

/-- Source line 42: the accessor `d => d.value || 1` passed to
`root.sum`. A missing value (`undefined`) and the number `0` are falsy
in JavaScript, so `||` replaces them by `1`; every other number,
including negative ones, is truthy and kept. -/
def valueOr1 (v : Option ℤ) : ℤ :=
  match v with
  | none => 1
  | some x => if x = 0 then 1 else x

/-- The `HierarchyNode` input tree (`name`, optional numeric `value`,
reference to the underlying AST node, ordered children). -/
inductive HTree : Type where
  | node (name : String) (value : Option ℤ) (astId : ℕ) (children : List HTree)

mutual
/-- Model of `root.sum(d => d.value || 1)` (source line 42): the
aggregate value of a node is its own accessor value plus the sum of the
aggregate values of its children. -/
def sumValue : HTree → ℤ
  | .node _ v _ cs => valueOr1 v + sumValueList cs

/-- Sum of `sumValue` over a list of children. -/
def sumValueList : List HTree → ℤ
  | [] => 0
  | t :: ts => sumValue t + sumValueList ts
end

/-- Source line 188: the character budget of a label,
`Math.floor((arcRadius * Math.PI) / (fontSize * 0.6))` with
`arcRadius = r - 5` (line 178). -/
def maxChars (r fontSize : ℚ) : ℤ :=
  Int.floor (((r - 5) * mathPi) / (fontSize * (3 / 5)))

/-- Source line 189: `label.length > maxChars ?
label.slice(0, maxChars - 2) + '...' : label`. -/
def truncatedLabel (r fontSize : ℚ) (label : List Char) : List Char :=
  if maxChars r fontSize < (label.length : ℤ) then
    label.take (maxChars r fontSize - 2).toNat ++ ['.', '.', '.']
  else label

/-- An SVG transform `translate(tx, ty) scale(s)` on the zoom group. -/
structure Transform where
  tx : ℚ
  ty : ℚ
  scale : ℚ
deriving DecidableEq

/-- The transform the zoom group carries right after a render
(source line 73) and after a reset (source line 229):
`translate(margin, margin)` with implicit unit scale. -/
def rootTransform : Transform := ⟨margin, margin, 1⟩

/-- Application of an SVG `translate(tx, ty) scale(s)` transform to a
point: scaling happens first, then translation. -/
def applyTransform (t : Transform) (p : ℚ × ℚ) : ℚ × ℚ :=
  (t.tx + t.scale * p.1, t.ty + t.scale * p.2)

/-- A node of the packed tree as d3 hands it to the renderer: absolute
center, radius, depth, plus the hierarchy data used by the handlers. -/
structure PackedCircle where
  x : ℚ
  y : ℚ
  r : ℚ
  depth : ℕ
  astId : ℕ
  name : String
deriving DecidableEq

/-- Source lines 117-135: the target transform computed in the click
handler. `viewWidth = width - margin * 2`, `viewHeight` likewise,
`scale = min(viewWidth, viewHeight) / (clickedNode.r * 2)`,
`translate = (margin + centerX - x * scale, margin + centerY - y * scale)`. -/
def clickTransform (c : PackedCircle) : Transform :=
  let viewWidth := width - margin * 2
  let viewHeight := height - margin * 2
  let centerX := viewWidth / 2
  let centerY := viewHeight / 2
  let targetSize := min viewWidth viewHeight
  let s := targetSize / (c.r * 2)
  ⟨margin + (centerX - c.x * s), margin + (centerY - c.y * s), s⟩

/-- Source line 172: a label is created for a packed node exactly when
`d.depth === 0 && d.r > 30`. -/
def labelCreated (c : PackedCircle) : Bool :=
  c.depth == 0 && 30 < c.r

/-- A reference to a DOM element that a label entry can store. -/
inductive ElemRef where
  | zoomGroup
  | labelText (astId : ℕ)
deriving DecidableEq

/-- An entry of the `labelElements` array (source lines 86 and 208).
Line 208 pushes `text: textElement.node()?.parentElement`; the text
element was appended directly to the zoom group `g` (line 192), so the
element actually stored is the zoom group itself, not the text element. -/
structure LabelEntry where
  node : PackedCircle
  storedElem : ElemRef
deriving DecidableEq

/-- The `labelElements` array built by the render pass (source lines
167-210): one entry per node with a created label, each storing the
parent of its text element, which is the zoom group. -/
def labelEntries (nodes : List PackedCircle) : List LabelEntry :=
  (nodes.filter labelCreated).map (fun c => ⟨c, ElemRef.zoomGroup⟩)

/-- The mutable pieces of the component: the rendered pack nodes, the
React `focusedNode` state (source line 17), the transform and the
opacity of the zoom group, and the opacity of each created `.ring-label`
text element, keyed by the labelled node's AST id. -/
structure VizState where
  nodes : List PackedCircle
  focusedNode : Option ℕ
  transform : Transform
  groupOpacity : ℚ
  labelOps : List (ℕ × ℚ)
deriving DecidableEq

/-- Set the opacity of every `.ring-label` text element
(`selectAll('.ring-label').style('opacity', v)`). -/
def setAllLabelOps (v : ℚ) (l : List (ℕ × ℚ)) : List (ℕ × ℚ) :=
  l.map (fun p => (p.1, v))

/-- Set the opacity of the element a label entry stored: the zoom group
sets the group opacity; a text element sets that label's own opacity. -/
def setElemOpacity (e : ElemRef) (v : ℚ) (s : VizState) : VizState :=
  match e with
  | .zoomGroup => { s with groupOpacity := v }
  | .labelText i =>
      { s with labelOps := s.labelOps.map (fun p => if p.1 = i then (p.1, v) else p) }

/-- The state produced by a run of the render effect (source lines
24-216) for a freshly packed list of nodes: the previous drawing is
discarded, the zoom group is recreated at `translate(margin, margin)`
with default opacity, every created label is visible, and the React
`focusedNode` state is left untouched by the effect. -/
def renderState (focused : Option ℕ) (nodes : List PackedCircle) : VizState :=
  { nodes := nodes
    focusedNode := focused
    transform := rootTransform
    groupOpacity := 1
    labelOps := (nodes.filter labelCreated).map (fun c => (c.astId, 1)) }

/-- State at the start of the click transition (source lines 103-131):
the clicked node becomes the focused node and every `.ring-label` is
hidden immediately; the animated transform has not changed yet. -/
def clickStart (s : VizState) (c : PackedCircle) : VizState :=
  { s with
    focusedNode := some c.astId
    labelOps := setAllLabelOps 0 s.labelOps }

/-- State once the click transition has completed (source lines
132-142): the transform has reached `clickTransform c`, and the `end`
handler looks the clicked node up in `labelElements` and, when an entry
exists, sets opacity 1 on the element that entry stored. -/
def clickEnd (s : VizState) (c : PackedCircle) : VizState :=
  let s1 := { clickStart s c with transform := clickTransform c }
  match (labelEntries s.nodes).find? (fun e => e.node == c) with
  | some e => setElemOpacity e.storedElem 1 s1
  | none => s1

/-- State once the reset transition has completed (source lines
219-234): `focusedNode` is cleared, the transform is back to
`translate(50, 50)`, and every `.ring-label` is made visible again. -/
def resetEnd (s : VizState) : VizState :=
  { s with
    focusedNode := none
    transform := rootTransform
    labelOps := setAllLabelOps 1 s.labelOps }

/-- The events the component reacts to: the effect re-running because
the `ast` prop changed (with the freshly packed nodes), a click on a
circle, the reset button, and the pointer entering or leaving a circle. -/
inductive VizEvent where
  | rebuild (nodes : List PackedCircle)
  | click (c : PackedCircle)
  | resetZoom
  | mouseenter (c : PackedCircle)
  | mouseleave (c : PackedCircle)

/-- One event processed to completion: the resulting state, plus the
list of arguments passed to the hover listener `onNodeHoverRef.current`
while handling the event. A click passes the clicked node's AST node
(source line 145), mouseenter passes the hovered node's AST node
(line 154), mouseleave passes null (line 163). -/
def stepE (s : VizState) : VizEvent → VizState × List (Option ℕ)
  | .rebuild nodes => (renderState s.focusedNode nodes, [])
  | .click c => (clickEnd s c, [some c.astId])
  | .resetZoom => (resetEnd s, [])
  | .mouseenter c => (s, [some c.astId])
  | .mouseleave _ => (s, [none])

/-- The state reached after a sequence of events. -/
def runEvents (s : VizState) (es : List VizEvent) : VizState :=
  es.foldl (fun st e => (stepE st e).1) s

/-- Effective visibility of the label of the node with the given AST
id: the label exists, its own opacity is positive, and the opacity of
the zoom group containing it is positive. -/
def labelVisible (s : VizState) (astId : ℕ) : Bool :=
  match s.labelOps.find? (fun p => p.1 == astId) with
  | some p => 0 < p.2 && 0 < s.groupOpacity
  | none => false

/-!
The circle packing itself. The repository performs it with the external
`d3.pack` library (source lines 56-61), whose implementation is not
part of the sources. The definitions below are therefore modelled from
the specification of the LayoutEngine: aggregate values are computed
bottom-up, each node packs the circles of its children inside its own
circle separated by the padding, and the finished root packing is
scaled and translated to fit the interior viewport box. Children are
placed deterministically along the horizontal diameter of the parent.
-/

/-- A node of the packed tree: absolute center, radius, children. -/
inductive PTree : Type where
  | node (x y r : ℚ) (children : List PTree)

/-- Center and radius of a circle of the packing. -/
structure Circle where
  x : ℚ
  y : ℚ
  r : ℚ
deriving DecidableEq

/-- The circle of the root node of a packed subtree. -/
def top : PTree → Circle
  | .node x y r _ => ⟨x, y, r⟩

/-- The children of the root node of a packed subtree. -/
def childrenOf : PTree → List PTree
  | .node _ _ _ cs => cs

mutual
/-- Modelled from the spec: the radius a node of the hierarchy receives
before the final viewport scaling. A leaf receives the unit radius (the
TreeFlattener gives every node the unit weight); an inner node receives
the smallest radius that spans its children's circles laid side by side
separated by the padding. -/
def packRadius (pad : ℚ) : HTree → ℚ
  | .node _ _ _ [] => 1
  | .node _ _ _ (c :: cs) =>
      packRadiusList pad (c :: cs) + pad * ((c :: cs).length : ℚ)

/-- Sum of the packed radii of a list of subtrees. -/
def packRadiusList (pad : ℚ) : List HTree → ℚ
  | [] => 0
  | t :: ts => packRadius pad t + packRadiusList pad ts
end

mutual
/-- Modelled from the spec: pack a hierarchy node as a circle centered
at `(cx, cy)`, with its children packed inside it along its horizontal
diameter, each separated from the previous circle by `pad`. -/
def packAt (pad cx cy : ℚ) : HTree → PTree
  | .node n v a cs =>
      let r := packRadius pad (.node n v a cs)
      .node cx cy r (packChildren pad (cx - r) cy cs)

/-- Pack a list of sibling subtrees from left to right: `acc` is the
right edge of what has been placed so far; each subtree is packed `pad`
after that edge. -/
def packChildren (pad acc cy : ℚ) : List HTree → List PTree
  | [] => []
  | t :: ts =>
      let r := packRadius pad t
      packAt pad (acc + pad + r) cy t :: packChildren pad (acc + pad + 2 * r) cy ts
end

mutual
/-- Scale a packed subtree by `s` and then translate it by `(tx, ty)`. -/
def scaleTree (s tx ty : ℚ) : PTree → PTree
  | .node x y r cs => .node (s * x + tx) (s * y + ty) (s * r) (scaleTreeList s tx ty cs)

/-- Scale a list of packed subtrees by `s`, then translate by `(tx, ty)`. -/
def scaleTreeList (s tx ty : ℚ) : List PTree → List PTree
  | [] => []
  | p :: ps => scaleTree s tx ty p :: scaleTreeList s tx ty ps
end

/-- Scale a circle by `s` and then translate it by `(tx, ty)`. -/
def scaleCircle (s tx ty : ℚ) (c : Circle) : Circle :=
  ⟨s * c.x + tx, s * c.y + ty, s * c.r⟩

/-- Scale both circles of a parent-child pair. -/
def scalePair (s tx ty : ℚ) (pr : Circle × Circle) : Circle × Circle :=
  (scaleCircle s tx ty pr.1, scaleCircle s tx ty pr.2)

mutual
/-- All parent-child circle pairs of a packed tree. -/
def childPairs : PTree → List (Circle × Circle)
  | .node x y r cs => cs.map (fun c => (⟨x, y, r⟩, top c)) ++ childPairsList cs

/-- All parent-child circle pairs of a list of packed trees. -/
def childPairsList : List PTree → List (Circle × Circle)
  | [] => []
  | p :: ps => childPairs p ++ childPairsList ps
end

/-- Containment of circle `c` inside circle `p`, stated with the
squared Euclidean distance: together with `c.r ≤ p.r` this is
equivalent to `dist(center c, center p) + c.r ≤ p.r`. -/
def contains (p c : Circle) : Prop :=
  c.r ≤ p.r ∧ (c.x - p.x) ^ 2 + (c.y - p.y) ^ 2 ≤ (p.r - c.r) ^ 2

instance (p c : Circle) : Decidable (contains p c) := by
  unfold contains; infer_instance

/-- Modelled from the spec: the full layout run of the LayoutEngine,
for a viewport of the given width and height with the given margin.
The root packing (a circle of radius `packRadius pad t` around the
origin) is scaled so that its diameter equals the smaller side of the
interior box `(w - 2 margin) times (h - 2 margin)` and its center is
moved to the center of that box, matching the d3 pack size
`[width - margin * 2, height - margin * 2]` of source line 57. -/
def packLayout (w h m pad : ℚ) (t : HTree) : PTree :=
  let r := packRadius pad t
  let s := min (w - 2 * m) (h - 2 * m) / (2 * r)
  scaleTree s ((w - 2 * m) / 2) ((h - 2 * m) / 2) (packAt pad 0 0 t)

/-- The layout with the constants of the component: viewport 800 by
600, margin 50, padding `maxFontSize = 40`. -/
def appLayout (t : HTree) : PTree :=
  packLayout width height margin ((maxFontSize : ℚ)) t

/-- Example packed root circle: depth 0, radius 300, AST id 0. -/
def cRoot : PackedCircle := ⟨350, 250, 300, 0, 0, "SourceFile"⟩

/-- Example packed non-root circle: depth 1, radius 100, AST id 1. -/
def cChild : PackedCircle := ⟨300, 250, 100, 1, 1, "VariableStatement"⟩

/-- Example circle used to exercise the click transform. -/
def cSmall : PackedCircle := ⟨10, 20, 5, 1, 3, "Block"⟩

/-- Example scene: a root circle with one child circle. -/
def exNodes : List PackedCircle := [cRoot, cChild]

/-- Example freshly rendered state over `exNodes`, nothing focused. -/
def exState : VizState := renderState none exNodes

/-- A rebuilt scene in which no node carries AST id 1. -/
def newNodes : List PackedCircle := [⟨350, 250, 300, 0, 10, "SourceFile"⟩]

/-- Example label text of ten characters. -/
def exLabel : List Char := ['S', 'o', 'u', 'r', 'c', 'e', 'F', 'i', 'l', 'e']

/-- Example hierarchy: the scenario tree A(B, C(D)) of the spec. -/
def exTree : HTree :=
  .node "A" none 0
    [.node "B" none 1 [], .node "C" none 2 [.node "D" none 3 []]]

/-!
Theorems. Helper lemmas come first, then one theorem per claim of the
specification, each with its witness or counterexample.
-/

/-- Strong induction over the hierarchy tree: to prove a property of
every tree it suffices to prove it for a node assuming it for every
child. -/
theorem HTree.strongIndH {P : HTree → Prop}
    (h : ∀ n v a cs, (∀ c ∈ cs, P c) → P (.node n v a cs)) :
    ∀ t, P t
  | .node n v a cs => h n v a cs (fun c hc => HTree.strongIndH h c)
termination_by t => sizeOf t
decreasing_by
  have hlt := List.sizeOf_lt_of_mem hc
  simp only [HTree.node.sizeOf_spec]
  omega

/-- Strong induction over the packed tree. -/
theorem PTree.strongIndP {P : PTree → Prop}
    (h : ∀ x y r cs, (∀ c ∈ cs, P c) → P (.node x y r cs)) :
    ∀ p, P p
  | .node x y r cs => h x y r cs (fun c hc => PTree.strongIndP h c)
termination_by p => sizeOf p
decreasing_by
  have hlt := List.sizeOf_lt_of_mem hc
  simp only [PTree.node.sizeOf_spec]
  omega

/-- C2 counterexample: the padding the code hands to d3 is the constant
`maxFontSize = 40`, applied at every depth, so at depth 1 it does not
mirror the label font size at that depth, which is 37. This refutes the
claim that the applied separation mirrors the font size at each depth. -/
theorem C2_counterexample :
    appliedPadding 1 = 40 ∧ getFontSize 1 = 37 ∧ appliedPadding 1 ≠ getFontSize 1 := by
  refine ⟨by decide, by decide, by decide⟩

/-- C2 (amended): the separation applied during packing is the constant
`getFontSize 0 = 40` at every depth; being constant it is trivially
non-increasing in depth and never below the fixed minimum 24, but it
coincides with the per-depth label font size only at depth 0. -/
theorem C2_padding_constant (d : ℕ) :
    appliedPadding d = getFontSize 0 ∧
    (∀ e : ℕ, d ≤ e → appliedPadding e ≤ appliedPadding d) ∧
    24 ≤ appliedPadding d := by
  exact ⟨rfl, fun e _ => le_refl _, by norm_num [appliedPadding, maxFontSize, getFontSize]⟩

/-- Witness for the amended C2 theorem at depths 0 and 5. -/
theorem C2_padding_constant_witness :
    appliedPadding 0 = getFontSize 0 ∧
    appliedPadding 5 ≤ appliedPadding 0 ∧
    24 ≤ appliedPadding 0 :=
  ⟨(C2_padding_constant 0).1, (C2_padding_constant 0).2.1 5 (by decide),
    (C2_padding_constant 0).2.2⟩

/-- For any drawn label the character budget is at least 3: labels are
drawn only when the radius exceeds 30 and the top-level font size is 40. -/
theorem maxChars_ge_three (r : ℚ) (hr : 30 < r) : 3 ≤ maxChars r 40 := by
  unfold maxChars
  rw [Int.le_floor]
  have h1 : (40 : ℚ) * (3 / 5) = 24 := by norm_num
  rw [h1, le_div_iff (by norm_num : (0 : ℚ) < 24)]
  have hpi : (2.9 : ℚ) ≤ mathPi := by norm_num [mathPi]
  have h25 : (25 : ℚ) ≤ r - 5 := by linarith
  push_cast
  nlinarith

/-- C3 counterexample: for radius 35 and font size 40 the budget is 3
characters, yet the rendered label for a 4-character name is the cut
prefix plus the 3-character ellipsis, 4 characters in total, which
exceeds the budget. This refutes the claim that the rendered label
length never exceeds the arc-derived character budget. -/
theorem C3_counterexample :
    maxChars 35 40 = 3 ∧
    truncatedLabel 35 40 ['a', 'b', 'c', 'd'] = ['a', '.', '.', '.'] ∧
    ¬ (((truncatedLabel 35 40 ['a', 'b', 'c', 'd']).length : ℤ) ≤ maxChars 35 40) := by
  have hm : maxChars 35 40 = 3 := by
    unfold maxChars mathPi
    norm_num
  have ht : truncatedLabel 35 40 ['a', 'b', 'c', 'd'] = ['a', '.', '.', '.'] := by
    unfold truncatedLabel
    rw [hm]
    norm_num
  refine ⟨hm, ht, ?_⟩
  rw [hm, ht]
  decide

/-- C3 (amended): for every drawn label (radius above 30, top-level
font size 40), a label within the character budget is rendered
untruncated; a longer label is rendered as its prefix of budget minus 2
characters followed by the 3-character ellipsis, so the rendered length
is exactly the budget plus one, one more than the claimed bound. -/
theorem C3_label_truncation (r : ℚ) (label : List Char) (hr : 30 < r) :
    ((label.length : ℤ) ≤ maxChars r 40 → truncatedLabel r 40 label = label) ∧
    (maxChars r 40 < (label.length : ℤ) →
      truncatedLabel r 40 label = label.take (maxChars r 40 - 2).toNat ++ ['.', '.', '.'] ∧
      ((truncatedLabel r 40 label).length : ℤ) = maxChars r 40 + 1) := by
  have h3 := maxChars_ge_three r hr
  constructor
  · intro hle
    unfold truncatedLabel
    rw [if_neg (by omega)]
  · intro hgt
    have heq : truncatedLabel r 40 label =
        label.take (maxChars r 40 - 2).toNat ++ ['.', '.', '.'] := by
      unfold truncatedLabel
      rw [if_pos hgt]
    refine ⟨heq, ?_⟩
    rw [heq]
    simp only [List.length_append, List.length_take, List.length_cons, List.length_nil]
    omega

/-- Witness for the amended C3 theorem: radius 40, a ten-character
label; the budget is 4 and the rendered label has 5 characters. -/
theorem C3_label_truncation_witness :
    (30 : ℚ) < 40 ∧
    (((exLabel.length : ℤ) ≤ maxChars 40 40 → truncatedLabel 40 40 exLabel = exLabel) ∧
      (maxChars 40 40 < (exLabel.length : ℤ) →
        truncatedLabel 40 40 exLabel =
          exLabel.take (maxChars 40 40 - 2).toNat ++ ['.', '.', '.'] ∧
        ((truncatedLabel 40 40 exLabel).length : ℤ) = maxChars 40 40 + 1)) :=
  ⟨by norm_num, C3_label_truncation 40 exLabel (by norm_num)⟩

/-- C4 counterexample: a node with the negative weight -5 keeps that
weight, because -5 is truthy in JavaScript and survives `|| 1`; its
aggregate value is -5, not the claimed unit weight 1. -/
theorem C4_counterexample :
    valueOr1 (some (-5)) = -5 ∧
    sumValue (.node "x" (some (-5)) 0 []) = -5 ∧
    ((-5 : ℤ) ≠ 1) := by
  refine ⟨by decide, by decide, by decide⟩

/-- C4 (amended): the aggregate value of a node is its accessor value
plus the aggregate of its children, where the accessor `d.value || 1`
replaces only a missing or zero weight by the unit weight 1 and keeps
every other weight, negative ones included. -/
theorem C4_weight_fallback (n : String) (v : Option ℤ) (a : ℕ) (cs : List HTree) :
    sumValue (.node n v a cs) = valueOr1 v + sumValueList cs ∧
    ((v = none ∨ v = some 0) → valueOr1 v = 1) ∧
    (∀ x : ℤ, x ≠ 0 → valueOr1 (some x) = x) := by
  refine ⟨by rw [sumValue], ?_, ?_⟩
  · rintro (rfl | rfl) <;> simp [valueOr1]
  · intro x hx
    simp [valueOr1, hx]

/-- Witness for the amended C4 theorem at a single node of weight 0. -/
theorem C4_weight_fallback_witness :
    sumValue (.node "x" (some 0) 0 []) = valueOr1 (some 0) + sumValueList [] ∧
    valueOr1 (some 0) = 1 ∧
    valueOr1 (some 7) = 7 :=
  ⟨(C4_weight_fallback "x" (some 0) 0 []).1,
    (C4_weight_fallback "x" (some 0) 0 []).2.1 (Or.inr rfl),
    (C4_weight_fallback "x" (some 0) 0 []).2.2 7 (by decide)⟩

/-- C6: the transform computed by the click handler scales by
`min(viewWidth, viewHeight) / (2 r)` over the interior box 700 by 500,
translates by the interior center minus the scaled node center plus the
margin offset, and therefore maps the clicked circle to the circle
centered at the viewport center whose diameter is the smaller interior
side, that is, the circle fills the interior viewport box. -/
theorem C6_click_transform (c : PackedCircle) (h : 0 < c.r) :
    (clickTransform c).scale =
      min (width - margin * 2) (height - margin * 2) / (2 * c.r) ∧
    (clickTransform c).tx =
      margin + ((width - margin * 2) / 2 - c.x * (clickTransform c).scale) ∧
    (clickTransform c).ty =
      margin + ((height - margin * 2) / 2 - c.y * (clickTransform c).scale) ∧
    applyTransform (clickTransform c) (c.x, c.y) = (width / 2, height / 2) ∧
    (clickTransform c).scale * c.r =
      min (width - margin * 2) (height - margin * 2) / 2 := by
  have hne : c.r ≠ 0 := ne_of_gt h
  have hmin : min (width - margin * 2) (height - margin * 2) = 500 := by
    norm_num [width, height, margin]
  refine ⟨?_, rfl, rfl, ?_, ?_⟩
  · show min (width - margin * 2) (height - margin * 2) / (c.r * 2) =
        min (width - margin * 2) (height - margin * 2) / (2 * c.r)
    rw [mul_comm c.r 2]
  · show (margin + ((width - margin * 2) / 2 -
        c.x * (min (width - margin * 2) (height - margin * 2) / (c.r * 2))) +
        min (width - margin * 2) (height - margin * 2) / (c.r * 2) * c.x,
        margin + ((height - margin * 2) / 2 -
        c.y * (min (width - margin * 2) (height - margin * 2) / (c.r * 2))) +
        min (width - margin * 2) (height - margin * 2) / (c.r * 2) * c.y) =
        ((width : ℚ) / 2, (height : ℚ) / 2)
    rw [hmin]
    norm_num [width, height, margin]
    constructor <;> ring
  · show min (width - margin * 2) (height - margin * 2) / (c.r * 2) * c.r =
        min (width - margin * 2) (height - margin * 2) / 2
    rw [hmin]
    field_simp
    ring

/-- Every entry of the `labelElements` array stores the zoom group,
because the code pushes the parent element of each text element. -/
theorem labelEntries_storedElem (nodes : List PackedCircle) (e : LabelEntry)
    (he : e ∈ labelEntries nodes) : e.storedElem = ElemRef.zoomGroup := by
  unfold labelEntries at he
  obtain ⟨c, _, rfl⟩ := List.mem_map.mp he
  rfl

/-- Characterization of the state after a completed click transition:
the clicked node is focused, the transform is the click transform,
every ring label has opacity 0, and the zoom group's opacity is set to
1 exactly when the clicked node has an entry in `labelElements`. -/
theorem clickEnd_eq (s : VizState) (c : PackedCircle) :
    clickEnd s c =
      { nodes := s.nodes
        focusedNode := some c.astId
        transform := clickTransform c
        groupOpacity :=
          if ((labelEntries s.nodes).find? (fun e => e.node == c)).isSome then 1
          else s.groupOpacity
        labelOps := setAllLabelOps 0 s.labelOps } := by
  unfold clickEnd
  cases hf : (labelEntries s.nodes).find? (fun e => e.node == c) with
  | none => simp [clickStart]
  | some e =>
      have hg : e.storedElem = ElemRef.zoomGroup :=
        labelEntries_storedElem s.nodes e (List.mem_of_find?_eq_some hf)
      simp [setElemOpacity, clickStart, hg]

/-- Every label opacity in the list set to `v` is `v`. -/
theorem setAllLabelOps_mem (v : ℚ) (l : List (ℕ × ℚ)) :
    ∀ p ∈ setAllLabelOps v l, p.2 = v := by
  intro p hp
  obtain ⟨q, _, rfl⟩ := List.mem_map.mp hp
  rfl

/-- C5 counterexample: focus the child node (AST id 1), then rebuild
the tree with nodes that do not contain AST id 1. The focused-node
state still references AST id 1 afterwards, refuting the claim that the
focus state resets to Root with no stale reference. -/
theorem C5_counterexample :
    (newNodes.all (fun c => c.astId ≠ 1)) = true ∧
    (stepE (runEvents exState [VizEvent.click cChild])
        (VizEvent.rebuild newNodes)).1.focusedNode = some 1 ∧
    some 1 ≠ (none : Option ℕ) := by
  refine ⟨by decide, ?_, by decide⟩
  rfl

/-- C5 (amended): when the tree is rebuilt, the effect recreates the
drawing from scratch, so the rendered view transform is back at the
root transform instantaneously, but the `focusedNode` React state is
not touched by the effect and keeps whatever node it referenced, even
when that node is absent from the new tree. -/
theorem C5_rebuild_keeps_focus (s : VizState) (nodes : List PackedCircle) :
    (stepE s (.rebuild nodes)).1.focusedNode = s.focusedNode ∧
    (stepE s (.rebuild nodes)).1.transform = rootTransform :=
  ⟨rfl, rfl⟩

/-- C7: after any sequence of events (in particular any clicks), the
reset action brings the zoom-group transform back to the original root
transform, translate `(margin, margin)` with scale 1, exactly. -/
theorem C7_reset_restores_root (s : VizState) (es : List VizEvent) :
    (runEvents s (es ++ [VizEvent.resetZoom])).transform = ⟨margin, margin, 1⟩ := by
  unfold runEvents
  rw [List.foldl_append]
  rfl

/-- C8 counterexample: the root circle has a created label (depth 0 and
radius 300, above the threshold 30) and is eligible at the new top
level after being clicked, yet once the click transition completes its
label is still invisible: the completion handler raises the opacity of
the element stored in its `labelElements` entry, which is the zoom
group rather than the label text, while the label text keeps the
opacity 0 it was given at transition start. -/
theorem C8_counterexample :
    labelCreated cRoot = true ∧
    (30 : ℚ) < cRoot.r ∧
    labelVisible (stepE exState (VizEvent.click cRoot)).1 cRoot.astId = false := by
  refine ⟨by decide, by norm_num [cRoot], ?_⟩
  rfl

/-- C8 (amended): on the start of every click transition all ring
labels are hidden immediately; after the transition completes every
ring label still has opacity 0 (so no label, not even the focused
node's, becomes visible), and what the completion handler raises to
opacity 1 is the zoom group, and only when the clicked node had a label
entry created for it at render time. -/
theorem C8_label_visibility (s : VizState) (c : PackedCircle) :
    (∀ p ∈ (clickStart s c).labelOps, p.2 = 0) ∧
    (∀ p ∈ (stepE s (.click c)).1.labelOps, p.2 = 0) ∧
    ((stepE s (.click c)).1.groupOpacity =
      if ((labelEntries s.nodes).find? (fun e => e.node == c)).isSome then 1
      else s.groupOpacity) := by
  refine ⟨?_, ?_, ?_⟩
  · exact setAllLabelOps_mem 0 s.labelOps
  · show ∀ p ∈ (clickEnd s c).labelOps, p.2 = 0
    rw [clickEnd_eq]
    exact setAllLabelOps_mem 0 s.labelOps
  · show (clickEnd s c).groupOpacity = _
    rw [clickEnd_eq]

/-- Witness for the amended C8 theorem: in the example scene, the pair
for the root label is in the label list after the click on the root and
its opacity is 0. -/
theorem C8_label_visibility_witness :
    ((0 : ℕ), (0 : ℚ)) ∈ (stepE exState (VizEvent.click cRoot)).1.labelOps ∧
    (((0 : ℕ), (0 : ℚ)) : ℕ × ℚ).2 = 0 :=
  ⟨by decide, (C8_label_visibility exState cRoot).2.1 (0, 0) (by decide)⟩

/-- C10: handling a click on a circle passes the clicked node's AST
node to the current hover listener (and exactly that one call), in
addition to focusing the node and starting the zoom transition, even
though no pointer-enter event was processed. -/
theorem C10_click_invokes_hover (s : VizState) (c : PackedCircle) :
    (stepE s (.click c)).2 = [some c.astId] ∧
    (stepE s (.click c)).1.focusedNode = some c.astId ∧
    (stepE s (.click c)).1.transform = clickTransform c := by
  refine ⟨rfl, ?_, ?_⟩
  · show (clickEnd s c).focusedNode = some c.astId
    rw [clickEnd_eq]
  · show (clickEnd s c).transform = clickTransform c
    rw [clickEnd_eq]

/-- Witness for the C6 theorem at a concrete circle of radius 5. -/
theorem C6_click_transform_witness :
    (0 : ℚ) < cSmall.r ∧
    ((clickTransform cSmall).scale =
        min (width - margin * 2) (height - margin * 2) / (2 * cSmall.r) ∧
      (clickTransform cSmall).tx =
        margin + ((width - margin * 2) / 2 - cSmall.x * (clickTransform cSmall).scale) ∧
      (clickTransform cSmall).ty =
        margin + ((height - margin * 2) / 2 - cSmall.y * (clickTransform cSmall).scale) ∧
      applyTransform (clickTransform cSmall) (cSmall.x, cSmall.y) = (width / 2, height / 2) ∧
      (clickTransform cSmall).scale * cSmall.r =
        min (width - margin * 2) (height - margin * 2) / 2) :=
  ⟨by norm_num [cSmall], C6_click_transform cSmall (by norm_num [cSmall])⟩

/-- The top-level font size equals 40. -/
theorem maxFontSize_eq : maxFontSize = 40 := by decide

/-- Radius of a leaf of the packing. -/
theorem packRadius_leaf (pad : ℚ) (n : String) (v : Option ℤ) (a : ℕ) :
    packRadius pad (.node n v a []) = 1 := by
  rw [packRadius]

/-- Radius of an inner node of the packing. -/
theorem packRadius_cons (pad : ℚ) (n : String) (v : Option ℤ) (a : ℕ)
    (c : HTree) (cs : List HTree) :
    packRadius pad (.node n v a (c :: cs)) =
      packRadiusList pad (c :: cs) + pad * (((c :: cs).length : ℕ) : ℚ) := by
  rw [packRadius]

/-- Packed radius sum of the empty list. -/
theorem packRadiusList_nil (pad : ℚ) : packRadiusList pad [] = 0 := by
  rw [packRadiusList]

/-- Packed radius sum of a nonempty list. -/
theorem packRadiusList_cons (pad : ℚ) (t : HTree) (ts : List HTree) :
    packRadiusList pad (t :: ts) = packRadius pad t + packRadiusList pad ts := by
  rw [packRadiusList]

/-- The packed radius sum is nonnegative when every radius is. -/
theorem packRadiusList_nonneg_of (pad : ℚ) :
    ∀ ts : List HTree, (∀ t ∈ ts, 0 ≤ packRadius pad t) → 0 ≤ packRadiusList pad ts := by
  intro ts
  induction ts with
  | nil => intro _; rw [packRadiusList_nil]
  | cons t ts ih =>
      intro hall
      rw [packRadiusList_cons]
      have h1 := hall t (by simp)
      have h2 := ih (fun u hu => hall u (by simp [hu]))
      linarith

/-- Every node of the hierarchy receives a radius of at least 1. -/
theorem one_le_packRadius (pad : ℚ) (hpad : 0 ≤ pad) : ∀ t, 1 ≤ packRadius pad t := by
  refine HTree.strongIndH ?_
  intro n v a cs ih
  cases cs with
  | nil => rw [packRadius_leaf]
  | cons c cs' =>
      rw [packRadius_cons, packRadiusList_cons]
      have h1 : 1 ≤ packRadius pad c := ih c (by simp)
      have h2 : 0 ≤ packRadiusList pad cs' :=
        packRadiusList_nonneg_of pad cs'
          (fun u hu => le_trans zero_le_one (ih u (by simp [hu])))
      have h3 : 0 ≤ pad * ((((c :: cs').length : ℕ)) : ℚ) :=
        mul_nonneg hpad (by positivity)
      linarith

/-- Packed radii are nonnegative. -/
theorem packRadius_nonneg (pad : ℚ) (hpad : 0 ≤ pad) (t : HTree) :
    0 ≤ packRadius pad t :=
  le_trans zero_le_one (one_le_packRadius pad hpad t)

/-- Packed radius sums are nonnegative. -/
theorem packRadiusList_nonneg (pad : ℚ) (hpad : 0 ≤ pad) (ts : List HTree) :
    0 ≤ packRadiusList pad ts :=
  packRadiusList_nonneg_of pad ts (fun t _ => packRadius_nonneg pad hpad t)

/-- Unfolding of the packing of a node. -/
theorem packAt_node (pad cx cy : ℚ) (n : String) (v : Option ℤ) (a : ℕ)
    (cs : List HTree) :
    packAt pad cx cy (.node n v a cs) =
      .node cx cy (packRadius pad (.node n v a cs))
        (packChildren pad (cx - packRadius pad (.node n v a cs)) cy cs) := by
  rw [packAt]

/-- Packing an empty list of children. -/
theorem packChildren_nil (pad acc cy : ℚ) : packChildren pad acc cy [] = [] := by
  rw [packChildren]

/-- Packing a nonempty list of children. -/
theorem packChildren_cons (pad acc cy : ℚ) (t : HTree) (ts : List HTree) :
    packChildren pad acc cy (t :: ts) =
      packAt pad (acc + pad + packRadius pad t) cy t ::
        packChildren pad (acc + pad + 2 * packRadius pad t) cy ts := by
  rw [packChildren]

/-- Top circle of a packed tree node. -/
theorem top_node (x y r : ℚ) (cs : List PTree) : top (.node x y r cs) = ⟨x, y, r⟩ := rfl

/-- Top circle of a packed hierarchy node. -/
theorem top_packAt (pad cx cy : ℚ) (t : HTree) :
    top (packAt pad cx cy t) = ⟨cx, cy, packRadius pad t⟩ := by
  cases t with
  | node n v a cs => rw [packAt_node, top_node]

/-- Unfolding of the parent-child pairs of a packed tree node. -/
theorem childPairs_node (x y r : ℚ) (cs : List PTree) :
    childPairs (.node x y r cs) =
      cs.map (fun c => (⟨x, y, r⟩, top c)) ++ childPairsList cs := by
  rw [childPairs]

/-- Parent-child pairs of an empty forest. -/
theorem childPairsList_nil : childPairsList [] = [] := by
  rw [childPairsList]

/-- Parent-child pairs of a nonempty forest. -/
theorem childPairsList_cons (p : PTree) (ps : List PTree) :
    childPairsList (p :: ps) = childPairs p ++ childPairsList ps := by
  rw [childPairsList]

/-- A pair of a forest comes from one of its trees. -/
theorem childPairsList_mem (pr : Circle × Circle) :
    ∀ ps : List PTree, pr ∈ childPairsList ps → ∃ p ∈ ps, pr ∈ childPairs p := by
  intro ps
  induction ps with
  | nil => intro hp; rw [childPairsList_nil] at hp; simp at hp
  | cons p ps ih =>
      intro hp
      rw [childPairsList_cons] at hp
      rcases List.mem_append.mp hp with h1 | h2
      · exact ⟨p, by simp, h1⟩
      · obtain ⟨q, hq, hpr⟩ := ih h2
        exact ⟨q, by simp [hq], hpr⟩

/-- Every packed sibling is itself the packing of one of the subtrees,
somewhere on the horizontal line through the parent center. -/
theorem packChildren_mem (pad cy : ℚ) :
    ∀ (cs : List HTree) (acc : ℚ) (p : PTree), p ∈ packChildren pad acc cy cs →
      ∃ c ∈ cs, ∃ b : ℚ, p = packAt pad b cy c := by
  intro cs
  induction cs with
  | nil => intro acc p hp; rw [packChildren_nil] at hp; simp at hp
  | cons c cs' ih =>
      intro acc p hp
      rw [packChildren_cons] at hp
      rcases List.mem_cons.mp hp with rfl | hmem
      · exact ⟨c, by simp, acc + pad + packRadius pad c, rfl⟩
      · obtain ⟨d, hd, b, hb⟩ := ih _ p hmem
        exact ⟨d, by simp [hd], b, hb⟩

/-- Geometry of a packed sibling row: every sibling stays on the line
`y = cy`, starts at least `pad` after the accumulated left edge, and
ends before the edge plus the padded span of the whole row. -/
theorem packChildren_bounds (pad cy : ℚ) (hpad : 0 ≤ pad) :
    ∀ (cs : List HTree) (acc : ℚ), ∀ p ∈ packChildren pad acc cy cs,
      (top p).y = cy ∧
      acc + pad ≤ (top p).x - (top p).r ∧
      (top p).x + (top p).r ≤
        acc + pad * ((cs.length : ℕ) : ℚ) + 2 * packRadiusList pad cs := by
  intro cs
  induction cs with
  | nil => intro acc p hp; rw [packChildren_nil] at hp; simp at hp
  | cons c cs' ih =>
      intro acc p hp
      rw [packChildren_cons] at hp
      have hrc : 1 ≤ packRadius pad c := one_le_packRadius pad hpad c
      have hrl : 0 ≤ packRadiusList pad cs' := packRadiusList_nonneg pad hpad cs'
      have hlen : 0 ≤ pad * ((cs'.length : ℕ) : ℚ) := mul_nonneg hpad (by positivity)
      have hx : pad * (((cs'.length : ℕ) : ℚ) + 1) = pad * ((cs'.length : ℕ) : ℚ) + pad := by
        ring
      rcases List.mem_cons.mp hp with rfl | hmem
      · rw [top_packAt, packRadiusList_cons]
        push_cast [List.length_cons]
        refine ⟨rfl, by linarith, by linarith⟩
      · obtain ⟨hy, hlo, hhi⟩ := ih (acc + pad + 2 * packRadius pad c) p hmem
        rw [packRadiusList_cons]
        push_cast [List.length_cons]
        refine ⟨hy, by linarith, by linarith⟩

/-- Every direct child circle of a packed node lies inside the node's
circle. -/
theorem packAt_children_contained (pad : ℚ) (hpad : 0 ≤ pad)
    (n : String) (v : Option ℤ) (a : ℕ) (cs : List HTree) (cx cy : ℚ) :
    ∀ p ∈ packChildren pad (cx - packRadius pad (.node n v a cs)) cy cs,
      contains ⟨cx, cy, packRadius pad (.node n v a cs)⟩ (top p) := by
  intro p hp
  cases cs with
  | nil => rw [packChildren_nil] at hp; simp at hp
  | cons c cs' =>
      obtain ⟨hy, hlo, hhi⟩ :=
        packChildren_bounds pad cy hpad (c :: cs')
          (cx - packRadius pad (.node n v a (c :: cs'))) p hp
      have hR : packRadius pad (.node n v a (c :: cs')) =
          packRadiusList pad (c :: cs') + pad * (((c :: cs').length : ℕ) : ℚ) :=
        packRadius_cons pad n v a c cs'
      have hk : 0 ≤ pad * (((c :: cs').length : ℕ) : ℚ) := mul_nonneg hpad (by positivity)
      constructor
      · show (top p).r ≤ packRadius pad (.node n v a (c :: cs'))
        linarith
      · show ((top p).x - cx) ^ 2 + ((top p).y - cy) ^ 2 ≤
          (packRadius pad (.node n v a (c :: cs')) - (top p).r) ^ 2
        have h1 : (top p).x - cx ≤ packRadius pad (.node n v a (c :: cs')) - (top p).r := by
          linarith
        have h2 : -(packRadius pad (.node n v a (c :: cs')) - (top p).r) ≤ (top p).x - cx := by
          linarith
        have h3 : ((top p).x - cx) ^ 2 ≤
            (packRadius pad (.node n v a (c :: cs')) - (top p).r) ^ 2 := sq_le_sq' h2 h1
        rw [hy]
        simp only [sub_self]
        calc ((top p).x - cx) ^ 2 + (0 : ℚ) ^ 2 = ((top p).x - cx) ^ 2 := by ring
          _ ≤ _ := h3

/-- Every parent-child pair anywhere in a packed tree satisfies the
containment invariant. -/
theorem packAt_pairs_contained (pad : ℚ) (hpad : 0 ≤ pad) :
    ∀ t, ∀ cx cy : ℚ, ∀ pr ∈ childPairs (packAt pad cx cy t), contains pr.1 pr.2 := by
  refine HTree.strongIndH ?_
  intro n v a cs ih cx cy pr hpr
  rw [packAt_node, childPairs_node] at hpr
  rcases List.mem_append.mp hpr with h1 | h2
  · obtain ⟨p, hp, rfl⟩ := List.mem_map.mp h1
    exact packAt_children_contained pad hpad n v a cs cx cy p hp
  · obtain ⟨p, hp, hpr2⟩ := childPairsList_mem pr _ h2
    obtain ⟨c, hc, b, hb⟩ := packChildren_mem pad cy cs _ p hp
    exact ih c hc b cy pr (hb ▸ hpr2)

/-- The scaled forest is the pointwise scaled list. -/
theorem scaleTreeList_eq_map (s tx ty : ℚ) :
    ∀ ps : List PTree, scaleTreeList s tx ty ps = ps.map (scaleTree s tx ty) := by
  intro ps
  induction ps with
  | nil => rw [scaleTreeList]; rfl
  | cons p ps ih => rw [scaleTreeList]; simp [ih]

/-- Unfolding of scaling on a packed node. -/
theorem scaleTree_node (s tx ty x y r : ℚ) (cs : List PTree) :
    scaleTree s tx ty (.node x y r cs) =
      .node (s * x + tx) (s * y + ty) (s * r) (scaleTreeList s tx ty cs) := by
  rw [scaleTree]

/-- Scaling commutes with taking the top circle. -/
theorem top_scaleTree (s tx ty : ℚ) (p : PTree) :
    top (scaleTree s tx ty p) = scaleCircle s tx ty (top p) := by
  cases p with
  | node x y r cs => rw [scaleTree_node]; rfl

/-- Parent-child pairs of a scaled forest, assuming the property for
every tree of the forest. -/
theorem childPairsList_scale_of (s tx ty : ℚ) :
    ∀ qs : List PTree,
      (∀ q ∈ qs, childPairs (scaleTree s tx ty q) =
        (childPairs q).map (scalePair s tx ty)) →
      childPairsList (qs.map (scaleTree s tx ty)) =
        (childPairsList qs).map (scalePair s tx ty) := by
  intro qs
  induction qs with
  | nil => intro _; simp [childPairsList_nil]
  | cons q qs ihq =>
      intro hall
      rw [List.map_cons, childPairsList_cons, childPairsList_cons, List.map_append]
      rw [hall q (by simp), ihq (fun u hu => hall u (by simp [hu]))]

/-- Scaling a packed tree scales each of its parent-child pairs. -/
theorem childPairs_scaleTree (s tx ty : ℚ) :
    ∀ p : PTree, childPairs (scaleTree s tx ty p) =
      (childPairs p).map (scalePair s tx ty) := by
  refine PTree.strongIndP ?_
  intro x y r cs ih
  rw [scaleTree_node, childPairs_node, childPairs_node, scaleTreeList_eq_map,
    List.map_append, List.map_map]
  congr 1
  · rw [List.map_map]
    refine List.map_congr_left ?_
    intro c _
    simp only [Function.comp_apply, scalePair, top_scaleTree]
    rfl
  · exact childPairsList_scale_of s tx ty cs ih

/-- Containment is preserved by a nonnegative scaling followed by a
translation. -/
theorem contains_scaleCircle (s tx ty : ℚ) (hs : 0 ≤ s) (p c : Circle)
    (h : contains p c) : contains (scaleCircle s tx ty p) (scaleCircle s tx ty c) := by
  obtain ⟨h1, h2⟩ := h
  constructor
  · exact mul_le_mul_of_nonneg_left h1 hs
  · have h3 := mul_le_mul_of_nonneg_left h2 (sq_nonneg s)
    show (s * c.x + tx - (s * p.x + tx)) ^ 2 + (s * c.y + ty - (s * p.y + ty)) ^ 2 ≤
      (s * p.r - s * c.r) ^ 2
    nlinarith [h3]

/-- C1: in the packed layout of any input tree (any viewport at least
as large as twice the margin, any nonnegative padding), every child
circle lies fully inside its parent circle: the squared distance of the
centers is at most the squared difference of the radii and the child
radius does not exceed the parent radius, which is containment with
tolerance zero. -/
theorem C1_child_inside_parent (w h m pad : ℚ) (hpad : 0 ≤ pad)
    (hw : 0 ≤ w - 2 * m) (hh : 0 ≤ h - 2 * m) (t : HTree) :
    ∀ pr ∈ childPairs (packLayout w h m pad t), contains pr.1 pr.2 := by
  intro pr hpr
  unfold packLayout at hpr
  have hR : (0 : ℚ) < packRadius pad t :=
    lt_of_lt_of_le zero_lt_one (one_le_packRadius pad hpad t)
  have hs : 0 ≤ min (w - 2 * m) (h - 2 * m) / (2 * packRadius pad t) :=
    div_nonneg (le_min hw hh) (by linarith)
  rw [childPairs_scaleTree] at hpr
  obtain ⟨pr0, h0, rfl⟩ := List.mem_map.mp hpr
  exact contains_scaleCircle _ _ _ hs _ _ (packAt_pairs_contained pad hpad t 0 0 pr0 h0)

/-- Witness for the C1 theorem: the component's viewport 800 by 600,
margin 50 and padding 40, on the scenario tree A(B, C(D)). -/
theorem C1_child_inside_parent_witness :
    (0 : ℚ) ≤ ((maxFontSize : ℤ) : ℚ) ∧
    (0 : ℚ) ≤ width - 2 * margin ∧
    (0 : ℚ) ≤ height - 2 * margin ∧
    ∀ pr ∈ childPairs (packLayout width height margin ((maxFontSize : ℤ) : ℚ) exTree),
      contains pr.1 pr.2 :=
  ⟨by rw [maxFontSize_eq]; norm_num,
    by norm_num [width, margin],
    by norm_num [height, margin],
    C1_child_inside_parent width height margin _
      (by rw [maxFontSize_eq]; norm_num)
      (by norm_num [width, margin])
      (by norm_num [height, margin]) exTree⟩

/-- C9: the layout is a pure function of its inputs: two runs on equal
trees with equal viewport dimensions, margin and padding produce equal
packed coordinates for every node. -/
theorem C9_layout_deterministic (w1 h1 m1 p1 w2 h2 m2 p2 : ℚ) (t1 t2 : HTree)
    (hw : w1 = w2) (hh : h1 = h2) (hm : m1 = m2) (hp : p1 = p2) (ht : t1 = t2) :
    packLayout w1 h1 m1 p1 t1 = packLayout w2 h2 m2 p2 t2 := by
  subst hw hh hm hp ht
  rfl

/-- Witness for the C9 theorem at the component's parameters. -/
theorem C9_layout_deterministic_witness :
    packLayout width height margin ((maxFontSize : ℤ) : ℚ) exTree =
      packLayout width height margin ((maxFontSize : ℤ) : ℚ) exTree :=
  C9_layout_deterministic width height margin _ width height margin _ exTree exTree
    rfl rfl rfl rfl rfl

end Arbor
